import Mathlib

/-!
parallel-ploter: plot layout, writer, planner and dispatcher.

A shallow embedding of `src/worker_writer.cpp` (the `Address` macro,
`transposition`, `writer_worker::perform_write_plot`) and of the planning and
dispatcher loops of `plotter::run_plotter` in `src/plotter.h`.

Conventions of the embedding:

* C integers (`int`, `int32_t`, `uint64_t`, `size_t`) are read as natural
  numbers: the development covers runs in which no C arithmetic overflows and
  no conversion changes a value.  For the `int` arithmetic of `Address` this is
  the range of nonce indices below 32768 (`Address_lt_int`).
* A buffer (`uint8_t*`) is a function from byte index to byte value.  A
  `uint32_t*` view of it addresses word `i` as the four bytes `4*i .. 4*i+3`.
* The stop token `signal::get().stopped()` is a Boolean argument: constant
  during one call of `perform_write_plot`, one value per pass of the dispatcher
  loop.
-/

namespace Ploter

/-! ## Constants of `worker_writer.cpp` -/

/-- The macro `NONCES_VECTOR`. -/
def NONCES_VECTOR : Nat := 16

/-- The macro `NONCES_VECTOR_MASK`. -/
def NONCES_VECTOR_MASK : Nat := 15

/-- The macro `NUM_HASHES`. -/
def NUM_HASHES : Nat := 8192

/-- The macro `HASH_SIZE_WORDS`. -/
def HASH_SIZE_WORDS : Nat := 8

/-- The macro `Address(nonce,hash,word)`.  `NONCES_VECTOR_ALIGN` is `~15`, so
`nonce & NONCES_VECTOR_ALIGN` is the bitwise difference `Nat.ldiff nonce 15`;
`NONCE_SIZE_WORDS` expands textually to `HASH_SIZE_WORDS * NUM_HASHES`. -/
def Address (nonce hash word : Nat) : Nat :=
  (Nat.ldiff nonce 15) * HASH_SIZE_WORDS * NUM_HASHES
    + hash * NONCES_VECTOR * HASH_SIZE_WORDS
    + word * NONCES_VECTOR
    + (nonce &&& NONCES_VECTOR_MASK)

/-- A byte buffer. -/
abbrev Buffer := Nat → Nat

/-- Byte `b` of the 32-bit word `i` of a buffer seen as `uint32_t*`. -/
def word32 (buf : Buffer) (i b : Nat) : Nat := buf (4 * i + b)

/-- The assignment `des[i] = src[j]` between two `uint32_t*` views. -/
def store32 (des : Buffer) (i : Nat) (src : Buffer) (j : Nat) : Buffer :=
  fun p => if p / 4 = i then src (4 * j + p % 4) else des p

/-- One iteration of the loop of `transposition`: the sixteen word copies, with
`des` the current word offset of the destination pointer. -/
def transposition_body (src write_buff : Buffer) (des cur_scoop nstart : Nat) : Buffer :=
  let d0 := store32 write_buff (des + 0x00) src (Address nstart (cur_scoop * 2) 0)
  let d1 := store32 d0 (des + 0x01) src (Address nstart (cur_scoop * 2) 1)
  let d2 := store32 d1 (des + 0x02) src (Address nstart (cur_scoop * 2) 2)
  let d3 := store32 d2 (des + 0x03) src (Address nstart (cur_scoop * 2) 3)
  let d4 := store32 d3 (des + 0x04) src (Address nstart (cur_scoop * 2) 4)
  let d5 := store32 d4 (des + 0x05) src (Address nstart (cur_scoop * 2) 5)
  let d6 := store32 d5 (des + 0x06) src (Address nstart (cur_scoop * 2) 6)
  let d7 := store32 d6 (des + 0x07) src (Address nstart (cur_scoop * 2) 7)
  let d8 := store32 d7 (des + 0x08) src (Address nstart (8192 - (cur_scoop * 2 + 1)) 0)
  let d9 := store32 d8 (des + 0x09) src (Address nstart (8192 - (cur_scoop * 2 + 1)) 1)
  let dA := store32 d9 (des + 0x0A) src (Address nstart (8192 - (cur_scoop * 2 + 1)) 2)
  let dB := store32 dA (des + 0x0B) src (Address nstart (8192 - (cur_scoop * 2 + 1)) 3)
  let dC := store32 dB (des + 0x0C) src (Address nstart (8192 - (cur_scoop * 2 + 1)) 4)
  let dD := store32 dC (des + 0x0D) src (Address nstart (8192 - (cur_scoop * 2 + 1)) 5)
  let dE := store32 dD (des + 0x0E) src (Address nstart (8192 - (cur_scoop * 2 + 1)) 6)
  store32 dE (des + 0x0F) src (Address nstart (8192 - (cur_scoop * 2 + 1)) 7)

/-- The loop `for (; nsize-->0; ++nstart,des+=16)` of `transposition`. -/
def transposition_loop (src : Buffer) (cur_scoop : Nat) :
    Nat → Nat → Nat → Buffer → Buffer
  | 0, _, _, write_buff => write_buff
  | nsize + 1, nstart, des, write_buff =>
    transposition_loop src cur_scoop nsize (nstart + 1) (des + 16)
      (transposition_body src write_buff des cur_scoop nstart)

/-- The function `transposition(data, write_buff, cur_scoop, nstart, nsize)`; the
result is the content of `write_buff` afterwards. -/
def transposition (data write_buff : Buffer) (cur_scoop nstart nsize : Nat) : Buffer :=
  transposition_loop data cur_scoop nsize nstart 0 write_buff

/-- Byte `r` (`0 ≤ r < 64`) of the scoop record that `transposition` builds for
nonce index `j` of a block: word `r / 4` of the sixteen copied words, the first
eight from hash `cur_scoop * 2`, the last eight from its mirror hash. -/
def record_byte (block : Buffer) (cur_scoop j r : Nat) : Nat :=
  word32 block
    (Address j (if r / 4 < 8 then cur_scoop * 2 else 8192 - (cur_scoop * 2 + 1)) (r / 4 % 8))
    (r % 4)

/-- The word indices of `src` that `transposition(_, _, cur_scoop, nstart, nsize)`
reads, in program order. -/
def transposition_reads (cur_scoop : Nat) : Nat → Nat → List Nat
  | 0, _ => []
  | nsize + 1, nstart =>
    [ Address nstart (cur_scoop * 2) 0, Address nstart (cur_scoop * 2) 1,
      Address nstart (cur_scoop * 2) 2, Address nstart (cur_scoop * 2) 3,
      Address nstart (cur_scoop * 2) 4, Address nstart (cur_scoop * 2) 5,
      Address nstart (cur_scoop * 2) 6, Address nstart (cur_scoop * 2) 7,
      Address nstart (8192 - (cur_scoop * 2 + 1)) 0, Address nstart (8192 - (cur_scoop * 2 + 1)) 1,
      Address nstart (8192 - (cur_scoop * 2 + 1)) 2, Address nstart (8192 - (cur_scoop * 2 + 1)) 3,
      Address nstart (8192 - (cur_scoop * 2 + 1)) 4, Address nstart (8192 - (cur_scoop * 2 + 1)) 5,
      Address nstart (8192 - (cur_scoop * 2 + 1)) 6, Address nstart (8192 - (cur_scoop * 2 + 1)) 7 ]
      ++ transposition_reads cur_scoop nsize (nstart + 1)

/-! ## Tasks, the plot file and the writer worker -/

/-- What the surroundings answer during one pass of the dispatcher loop.  The
reporter queue, the block allocator and `writer_worker::next_hasher_task` are
declared outside `src/`; their results are inputs of the loop here.
`stopped` is `signal::get().stopped()` at the loop head, `all_reported` tells
whether the reports popped so far account for every writer task, `nb` is the
result of `page_block_allocator.allocate` (a block identifier, if any) and
`next_hasher_task i` is what worker `i` returns when asked for its next hasher
task (a task identifier, if any). -/
structure iteration where
  stopped : Bool
  all_reported : Bool
  nb : Option Nat
  next_hasher_task : Nat → Option Nat

/-- The state of the dispatcher: the local `cur_worker_pos`, the constant
`max_worker_pos`, the arguments of the `hashing->push_task` calls made so far,
the blocks handed back through `page_block_allocator.retain`, the indices with
which `workers_` has been subscripted, and the number of passes started. -/
structure dispatcher where
  cur_worker_pos : Nat
  max_worker_pos : Nat
  pushed : List (Option Nat)
  retained : List Nat
  selected : List Nat
  passes : Nat

/-- The dispatcher state at `int cur_worker_pos{0}, max_worker_pos{(int)workers_.size()-1}`. -/
def dispatcher.init (workers_size : Nat) : dispatcher :=
  { cur_worker_pos := 0, max_worker_pos := workers_size - 1,
    pushed := [], retained := [], selected := [], passes := 0 }

/-- The body of the dispatcher loop (source lines 150 to 165) for one pass. -/
def dispatcher_body (workers_size : Nat) (it : iteration) (st : dispatcher) : dispatcher :=
  let st := { st with passes := st.passes + 1 }
  if workers_size = 0 then st
  else
    match it.nb with
    | none => st
    | some nb =>
      let pos := if st.cur_worker_pos ≥ st.max_worker_pos then 0 else st.cur_worker_pos
      let ht := it.next_hasher_task pos
      let retained := if ht.isNone then st.retained ++ [nb] else st.retained
      { st with
        cur_worker_pos := pos + 1
        selected := st.selected ++ [pos]
        retained := retained
        pushed := st.pushed ++ [ht] }

/-- The loop `while (! signal::get().stopped())` over the passes that the
surroundings allow for: the result is the final state and whether the loop has
exited. -/
def dispatcher_loop (workers_size : Nat) : List iteration → dispatcher → dispatcher × Bool
  | [], st => (st, false)
  | it :: rest, st =>
    if it.stopped then (st, true)
    else dispatcher_loop workers_size rest (dispatcher_body workers_size it st)

/-! ## Theorems -/

/-! ### The transposition -/

theorem store32_apply (des : Buffer) (i : Nat) (src : Buffer) (j p : Nat) :
    store32 des i src j p = if p / 4 = i then src (4 * j + p % 4) else des p := rfl

theorem transposition_body_eq (src wb : Buffer) (des s n p : Nat) :
    transposition_body src wb des s n p =
      if 4 * des ≤ p ∧ p < 4 * des + 64 then record_byte src s n (p - 4 * des) else wb p := by
  have key : ∀ c h w, p / 4 = des + c → c < 16 →
      h = (if c < 8 then s * 2 else 8192 - (s * 2 + 1)) → w = c % 8 →
      src (4 * Address n h w + p % 4) = record_byte src s n (p - 4 * des) := by
    intro c h w hp hc hh hw
    have h1 : (p - 4 * des) / 4 = c := by omega
    have h2 : (p - 4 * des) % 4 = p % 4 := by omega
    simp only [record_byte, word32, h1, h2, hh, hw]
  unfold transposition_body
  iterate 16
    rw [store32_apply]
    split
    · rename_i h
      rw [if_pos (by omega)]
      exact key _ _ _ h (by norm_num) (by norm_num) (by norm_num)
  rw [if_neg (by omega)]

theorem transposition_loop_eq (src : Buffer) (s : Nat) (k : Nat) :
    ∀ (a des : Nat) (wb : Buffer) (p : Nat),
      transposition_loop src s k a des wb p =
        if 4 * des ≤ p ∧ p < 4 * des + 64 * k then
          record_byte src s (a + (p - 4 * des) / 64) ((p - 4 * des) % 64)
        else wb p := by
  induction k with
  | zero =>
    intro a des wb p
    rw [transposition_loop, if_neg (by omega)]
  | succ k ih =>
    intro a des wb p
    rw [transposition_loop, ih, transposition_body_eq]
    by_cases h1 : 4 * (des + 16) ≤ p ∧ p < 4 * (des + 16) + 64 * k
    · rw [if_pos h1, if_pos (by omega)]
      congr 1 <;> omega
    · rw [if_neg h1]
      by_cases h2 : 4 * des ≤ p ∧ p < 4 * des + 64
      · rw [if_pos h2, if_pos (by omega)]
        congr 1 <;> omega
      · rw [if_neg h2, if_neg (by omega)]

theorem transposition_eq (src wb : Buffer) (s a k p : Nat) :
    transposition src wb s a k p =
      if p < 64 * k then record_byte src s (a + p / 64) (p % 64) else wb p := by
  rw [transposition, transposition_loop_eq]
  by_cases h : p < 64 * k
  · rw [if_pos h, if_pos (by omega)]; rfl
  · rw [if_neg h, if_neg (by omega)]

theorem ldiff_15 (n : Nat) : Nat.ldiff n 15 = n / 16 * 16 := by
  apply Nat.eq_of_testBit_eq
  intro k
  rw [Nat.testBit_ldiff]
  have h15 : (15:Nat) = 2 ^ 4 - 1 := by norm_num
  have h16 : (16:Nat) = 2 ^ 4 := by norm_num
  rw [h15, Nat.testBit_two_pow_sub_one, h16, Nat.mul_comm, Nat.testBit_mul_pow_two,
    ← Nat.shiftRight_eq_div_pow, Nat.testBit_shiftRight]
  by_cases hk : k < 4
  · simp [hk]
  · have h4 : 4 ≤ k := by omega
    have e : 4 + (k - 4) = k := by omega
    simp [hk, h4, e]

theorem Address_eq (n h w : Nat) :
    Address n h w = n / 16 * 1048576 + h * 128 + w * 16 + n % 16 := by
  have hm : n &&& 15 = n % 16 := Nat.and_pow_two_sub_one_eq_mod n 4
  simp only [Address, ldiff_15, HASH_SIZE_WORDS, NUM_HASHES, NONCES_VECTOR, NONCES_VECTOR_MASK, hm]
  omega

theorem Address_lt_int (n h w : Nat) (hn : n < 32768) (hh : h < 8192) (hw : w < 8) :
    Address n h w < 2 ^ 31 := by
  rw [Address_eq]; omega

theorem mem_transposition_reads (s : Nat) :
    ∀ k a i, i < k →
      (∀ w, w < 8 → Address (a + i) (s * 2) w ∈ transposition_reads s k a) ∧
      (∀ w, w < 8 → Address (a + i) (8192 - (s * 2 + 1)) w ∈ transposition_reads s k a) := by
  intro k
  induction k with
  | zero => intro a i hi; omega
  | succ k ih =>
    intro a i hi
    rw [transposition_reads]
    rcases Nat.eq_zero_or_pos i with h0 | hpos
    · subst h0
      constructor
      · intro w hw
        apply List.mem_append_left
        rw [Nat.add_zero]
        interval_cases w <;> simp
      · intro w hw
        apply List.mem_append_left
        rw [Nat.add_zero]
        interval_cases w <;> simp
    · obtain ⟨h1, h2⟩ := ih (a + 1) (i - 1) (by omega)
      have e : a + 1 + (i - 1) = a + i := by omega
      rw [e] at h1 h2
      exact ⟨fun w hw => List.mem_append_right _ (h1 w hw),
        fun w hw => List.mem_append_right _ (h2 w hw)⟩

theorem transposition_reads_only (src src' wb : Buffer) (s a k : Nat)
    (h : ∀ x ∈ transposition_reads s k a, ∀ b, b < 4 → word32 src x b = word32 src' x b) :
    transposition src wb s a k = transposition src' wb s a k := by
  funext p
  rw [transposition_eq, transposition_eq]
  by_cases hp : p < 64 * k
  · rw [if_pos hp, if_pos hp]
    obtain ⟨h1, h2⟩ := mem_transposition_reads s k a (p / 64) (by omega)
    unfold record_byte
    by_cases hc : p % 64 / 4 < 8
    · rw [if_pos hc]
      exact h _ (h1 (p % 64 / 4 % 8) (by omega)) _ (by omega)
    · rw [if_neg hc]
      exact h _ (h2 (p % 64 / 4 % 8) (by omega)) _ (by omega)
  · rw [if_neg hp, if_neg hp]

theorem succ_mod_step (n W : Nat) (hW : 1 ≤ W) :
    (if n % W + 1 ≥ W then 0 else n % W + 1) = (n + 1) % W := by
  have hlt := Nat.mod_lt n (show W > 0 by omega)
  have key : (n + 1) % W = (n % W + 1) % W := (Nat.mod_add_mod n W 1).symm
  rw [key]
  by_cases h : n % W + 1 ≥ W
  · have e : n % W + 1 = W := by omega
    rw [if_pos h, e, Nat.mod_self]
  · rw [if_neg h, Nat.mod_eq_of_lt (show n % W + 1 < W by omega)]

/-- The invariant of the dispatcher for `W` writer workers: the index that the
next dispatch step will use is the number of dispatch steps so far modulo `W`,
and the indices used so far are `0, 1, ..., W-1, 0, ...`. -/
theorem dispatcher_body_inv (W : Nat) (hW : 1 ≤ W) (it : iteration) (st : dispatcher)
    (hmax : st.max_worker_pos = W)
    (hnext : (if st.cur_worker_pos ≥ W then 0 else st.cur_worker_pos) = st.selected.length % W)
    (hsel : st.selected = (List.range st.selected.length).map (fun n => n % W)) :
    (dispatcher_body (W + 1) it st).max_worker_pos = W ∧
    (if (dispatcher_body (W + 1) it st).cur_worker_pos ≥ W then 0
      else (dispatcher_body (W + 1) it st).cur_worker_pos)
        = (dispatcher_body (W + 1) it st).selected.length % W ∧
    (dispatcher_body (W + 1) it st).selected =
      (List.range (dispatcher_body (W + 1) it st).selected.length).map (fun n => n % W) := by
  unfold dispatcher_body
  simp only [Nat.add_one_ne_zero, if_false]
  cases it.nb with
  | none => exact ⟨hmax, hnext, hsel⟩
  | some nb =>
    simp only [hmax, hnext, List.length_append, List.length_singleton]
    refine ⟨trivial, succ_mod_step _ W hW, ?_⟩
    rw [List.range_succ, List.map_append, ← hsel]
    rfl

theorem dispatcher_loop_inv (W : Nat) (hW : 1 ≤ W) (its : List iteration) :
    ∀ st : dispatcher, st.max_worker_pos = W →
      (if st.cur_worker_pos ≥ W then 0 else st.cur_worker_pos) = st.selected.length % W →
      st.selected = (List.range st.selected.length).map (fun n => n % W) →
      (dispatcher_loop (W + 1) its st).1.selected =
        (List.range (dispatcher_loop (W + 1) its st).1.selected.length).map (fun n => n % W) := by
  induction its with
  | nil => intro st _ _ hsel; exact hsel
  | cons it rest ih =>
    intro st hmax hnext hsel
    rw [dispatcher_loop]
    by_cases hs : it.stopped = true
    · rw [if_pos hs]; exact hsel
    · rw [if_neg hs]
      obtain ⟨h1, h2, h3⟩ := dispatcher_body_inv W hW it st hmax hnext hsel
      exact ih _ h1 h2 h3

/-- Claim C9: with `W ≥ 1` writer workers followed by the hasher worker
(`workers_.size() = W + 1`), the indices with which the dispatcher subscripts
`workers_` on successive dispatch steps are `0, 1, ..., W-1, 0, 1, ...`, and each
of them is below `W`, so the selected worker is always a writer. -/
theorem dispatcher_round_robin (W : Nat) (hW : 1 ≤ W) (its : List iteration) :
    (dispatcher_loop (W + 1) its (dispatcher.init (W + 1))).1.selected =
      (List.range (dispatcher_loop (W + 1) its (dispatcher.init (W + 1))).1.selected.length).map
        (fun n => n % W) ∧
    ∀ i ∈ (dispatcher_loop (W + 1) its (dispatcher.init (W + 1))).1.selected, i < W := by
  have h := dispatcher_loop_inv W hW its (dispatcher.init (W + 1)) rfl
    (by simp [dispatcher.init]) rfl
  refine ⟨h, ?_⟩
  intro i hi
  rw [h] at hi
  obtain ⟨n, _, rfl⟩ := List.mem_map.1 hi
  exact Nat.mod_lt n (by omega)

/-- Claim C7 at a failing pass: a block (number 7) is acquired and
`next_hasher_task` returns no task.  The body hands the block back to the pool and
then still calls `hashing->push_task` with the absent task. -/
theorem dispatcher_pushes_absent_task :
    (dispatcher_body 2 ⟨false, false, some 7, fun _ => none⟩ (dispatcher.init 2)).retained = [7] ∧
    (dispatcher_body 2 ⟨false, false, some 7, fun _ => none⟩ (dispatcher.init 2)).pushed
      = [none] := by
  decide

/-- Claim C8 fails as stated: in two passes in which every writer task has been
reported complete and the stop token is unset, the loop runs both passes and has
not exited. -/
theorem dispatcher_runs_after_completion :
    (dispatcher_loop 2
      [⟨false, true, some 7, fun _ => none⟩, ⟨false, true, some 8, fun _ => none⟩]
      (dispatcher.init 2)).1.passes = 2 ∧
    (dispatcher_loop 2
      [⟨false, true, some 7, fun _ => none⟩, ⟨false, true, some 8, fun _ => none⟩]
      (dispatcher.init 2)).2 = false := by
  decide

/-- Claim C8, amended: the dispatcher loop exits exactly when the stop token is
found set at a loop head; while it is unset the loop starts a pass for every
answer of its surroundings, also when all writer tasks have been reported
complete. -/
theorem dispatcher_exits_only_on_stop (workers_size : Nat) (its : List iteration) :
    ∀ st : dispatcher,
      ((dispatcher_loop workers_size its st).2 = true ↔ ∃ it ∈ its, it.stopped = true) ∧
      ((∀ it ∈ its, it.stopped = false) →
        (dispatcher_loop workers_size its st).1.passes = st.passes + its.length) := by
  induction its with
  | nil => intro st; simp [dispatcher_loop]
  | cons it rest ih =>
    intro st
    rw [dispatcher_loop]
    by_cases hs : it.stopped = true
    · rw [if_pos hs]
      refine ⟨by simp [hs], ?_⟩
      intro h
      have := h it (List.mem_cons_self _ _)
      rw [hs] at this
      exact absurd this (by decide)
    · rw [if_neg hs]
      obtain ⟨h1, h2⟩ := ih (dispatcher_body workers_size it st)
      have hp : (dispatcher_body workers_size it st).passes = st.passes + 1 := by
        unfold dispatcher_body
        simp only []
        split
        · rfl
        · split <;> rfl
      refine ⟨?_, ?_⟩
      · rw [h1]
        simp [hs]
      · intro h
        rw [h2 (fun it' h' => h it' (List.mem_cons_of_mem _ h')), hp, List.length_cons]
        omega

/-! ### The theorems at concrete inputs -/

/-- Claim C9 for two writer workers and five passes, of which the third acquires no
block. -/
theorem dispatcher_round_robin_witness :
    (dispatcher_loop 3
      [⟨false, false, some 1, fun _ => some 1⟩, ⟨false, false, some 2, fun _ => some 2⟩,
        ⟨false, false, none, fun _ => none⟩, ⟨false, false, some 3, fun _ => none⟩,
        ⟨false, false, some 4, fun _ => some 3⟩]
      (dispatcher.init 3)).1.selected = [0, 1, 0, 1] ∧
    ∀ i ∈ (dispatcher_loop 3
      [⟨false, false, some 1, fun _ => some 1⟩, ⟨false, false, some 2, fun _ => some 2⟩,
        ⟨false, false, none, fun _ => none⟩, ⟨false, false, some 3, fun _ => none⟩,
        ⟨false, false, some 4, fun _ => some 3⟩]
      (dispatcher.init 3)).1.selected, i < 2 :=
  ⟨by decide,
    (dispatcher_round_robin 2 (by decide)
      [⟨false, false, some 1, fun _ => some 1⟩, ⟨false, false, some 2, fun _ => some 2⟩,
        ⟨false, false, none, fun _ => none⟩, ⟨false, false, some 3, fun _ => none⟩,
        ⟨false, false, some 4, fun _ => some 3⟩]).2⟩

end Ploter
